import Mathlib

/-!
Shallow embedding of the account-selection and durable-state core of the
multi-account plugin (source: src/index.mjs, final revision).  JavaScript
numbers are modelled as rationals, JS `null`/`undefined` object fields as
`Option`, and JS truthiness of numbers/strings via the helpers below.
All state mutation is made explicit: functions that mutate `state` in the
source return the new state.
-/

namespace MultiAccount

/-- JS truthiness of a possibly-null number: `null`, `undefined` and `0` are falsy. -/
def numTruthy : Option ℚ → Bool
  | none => false
  | some v => v != 0

/-- JS truthiness of a possibly-null string: `null`, `undefined` and `""` are falsy. -/
def strTruthy : Option String → Bool
  | none => false
  | some s => s != ""

/-- One rate-limit metric as stored in `state.usage[name].<metric>`:
`{utilization, reset (epoch seconds, possibly null), status}`. -/
structure MetricUsage where
  utilization : ℚ
  reset : Option ℚ
  status : String
deriving DecidableEq, Repr

/-- Per-account usage record `state.usage[name]`.  Each metric field may be
absent from the underlying JSON object (`usage.session5h?.…` in the source),
hence `Option`. -/
structure AccountUsage where
  session5h : Option MetricUsage
  weekly7d : Option MetricUsage
  weekly7dSonnet : Option MetricUsage
  timestamp : Option String
deriving DecidableEq, Repr

/-- The `config.threshold` value: a single number, a per-metric object with
optional fields, or absent. -/
inductive ThresholdSetting where
  | num (v : ℚ)
  | obj (session5h weekly7d weekly7dSonnet : Option ℚ)
deriving DecidableEq, Repr

/-- Normalized per-metric thresholds. -/
structure Thresholds where
  session5h : ℚ
  weekly7d : ℚ
  weekly7dSonnet : ℚ
deriving DecidableEq, Repr

/-- `state.config`. -/
structure Config where
  threshold : Option ThresholdSetting
  checkInterval : Option ℚ
deriving DecidableEq, Repr

/-- An account record.  `access`/`refresh`/`expires` are the canonical fields;
`accessToken`/`refreshToken`/`expiresAt` are the legacy variants accepted by
`normalizeAccountFields`.  Only the numeric form of `expiresAt` is modelled
(the ISO-8601 `Date.parse` branch is exercised by no claim). -/
structure Account where
  name : String
  access : Option String
  refresh : Option String
  expires : Option ℚ
  accessToken : Option String
  refreshToken : Option String
  expiresAt : Option ℚ
deriving DecidableEq, Repr

/-- `state.json` runtime state.  `requestCount` and `lastPrimaryCheck` may be
absent (`state.lastPrimaryCheck || 0` in the source). -/
structure State where
  currentAccount : Option String
  usage : List (String × AccountUsage)
  requestCount : Option ℚ
  lastPrimaryCheck : Option ℚ
  config : Config
deriving DecidableEq, Repr

/-- JS object property lookup `usage[name]` on the usage map (keys unique). -/
def lookupUsage (usage : List (String × AccountUsage)) (name : String) : Option AccountUsage :=
  match usage with
  | [] => none
  | (k, v) :: rest => if k = name then some v else lookupUsage rest name

/-- Source `normalizeThresholds(value, fallback)`: a single number expands to
all three metrics; an object takes each field with `?? fallback`; anything
else falls back entirely. -/
def normalizeThresholds (value : Option ThresholdSetting) (fallback : ℚ) : Thresholds :=
  match value with
  | some (.num v) => ⟨v, v, v⟩
  | some (.obj a b c) => ⟨a.getD fallback, b.getD fallback, c.getD fallback⟩
  | none => ⟨fallback, fallback, fallback⟩

/-- `usage.<metric>?.utilization || 0`. -/
def metricUtil (m : Option MetricUsage) : ℚ :=
  match m with
  | some mu => mu.utilization
  | none => 0

/-- Source `isOverThreshold(usage)` (closure over the normalized thresholds):
true if any metric's utilization strictly exceeds its threshold; a missing
usage record is never over threshold. -/
def isOverThreshold (th : Thresholds) (usage : Option AccountUsage) : Bool :=
  match usage with
  | none => false
  | some u =>
      decide (metricUtil u.session5h > th.session5h) ||
      decide (metricUtil u.weekly7d > th.weekly7d) ||
      decide (metricUtil u.weekly7dSonnet > th.weekly7dSonnet)

/-- Source `getUtilizationScore(usage)`: the "pressure" of an account, the
maximum over metrics of utilization divided by that metric's threshold. -/
def getUtilizationScore (th : Thresholds) (usage : Option AccountUsage) : ℚ :=
  match usage with
  | none => 0
  | some u =>
      max (max (metricUtil u.session5h / th.session5h)
               (metricUtil u.weekly7d / th.weekly7d))
          (metricUtil u.weekly7dSonnet / th.weekly7dSonnet)

/-- Source `getEarliestResetTime(usage)`: the non-null per-metric reset
instants, minimum taken, converted from epoch seconds to milliseconds. -/
def getEarliestResetTime (usage : Option AccountUsage) : Option ℚ :=
  match usage with
  | none => none
  | some u =>
      match [u.session5h.bind (fun m => m.reset),
             u.weekly7d.bind (fun m => m.reset),
             u.weekly7dSonnet.bind (fun m => m.reset)].filterMap id with
      | [] => none
      | r :: rs => some ((rs.foldl min r) * 1000)

/-- The recovery-check trigger in the fallback-active branch:
`resetPassed || intervalPassed` with
`resetPassed = earliestReset && earliestReset <= now && earliestReset > lastCheck`
and `intervalPassed = (now - lastCheck) > CHECK_INTERVAL`. -/
def recoveryDue (checkInterval lastCheck now : ℚ) (primaryUsage : Option AccountUsage) : Bool :=
  let e := getEarliestResetTime primaryUsage
  (numTruthy e && decide (e.getD 0 ≤ now) && decide (e.getD 0 > lastCheck)) ||
    decide (now - lastCheck > checkInterval)

/-- The accumulator step of `fallbacks.reduce(...)`: keep the account with the
strictly lower score. -/
def pickLower (score : Account → ℚ) (lowest f : Account) : Account :=
  if score f < score lowest then f else lowest

/-- Source `selectThresholdAccount(accounts, state)`.  `Date.now()` is passed
explicitly as `now` (epoch ms) and the mutation of `state.lastPrimaryCheck`
is returned as the second component. -/
def selectThresholdAccount (accounts : List Account) (state : State) (now : ℚ) :
    Option Account × State :=
  let thresholds := normalizeThresholds state.config.threshold (7/10)
  let checkInterval := state.config.checkInterval.getD 3600000
  match accounts with
  | [] => (none, state)
  | [a] => (some a, state)
  | primary :: f0 :: rest =>
    if strTruthy state.currentAccount = false then (some primary, state)
    else
      let primaryUsage := lookupUsage state.usage primary.name
      if state.currentAccount = some primary.name then
        if isOverThreshold thresholds primaryUsage then
          match (f0 :: rest).find?
              (fun f => ! isOverThreshold thresholds (lookupUsage state.usage f.name)) with
          | some fb => (some fb, state)
          | none =>
            let score := fun f => getUtilizationScore thresholds (lookupUsage state.usage f.name)
            (some ((f0 :: rest).foldl (pickLower score) f0), state)
        else (some primary, state)
      else
        let lastCheck := state.lastPrimaryCheck.getD 0
        let cont := ((primary :: f0 :: rest).find?
            (fun a => decide (state.currentAccount = some a.name))).getD f0
        if recoveryDue checkInterval lastCheck now primaryUsage then
          let state1 := { state with lastPrimaryCheck := some now }
          if ! isOverThreshold thresholds primaryUsage then (some primary, state1)
          else (some cont, state1)
        else (some cont, state)

/-- Telemetry carried by one response for one metric (the three
`<metric>-utilization` / `-reset` / `-status` headers).  The outer `Option`
records whether the header was present (`rawX !== null`); for a present reset
header the inner `Option` is the value of `parseInt(rawReset) || null`
(so an unparsable or zero reset is `some none`).  A present utilization
header carries `parseFloat(rawUtil) || 0`. -/
structure MetricObs where
  util : Option ℚ
  reset : Option (Option ℚ)
  status : Option String
deriving DecidableEq, Repr

/-- `rawReset !== null ? (parseInt(rawReset) || null) : null` of the source. -/
def newResetOf (obs : MetricObs) : Option ℚ :=
  match obs.reset with
  | none => none
  | some r =>
      match r with
      | none => none
      | some v => if v = 0 then none else some v

/-- Source `updateMetric(prev, prefix)` from the fetch handler: returns the
new metric value for one of the three metrics given the previous value and
the response headers. -/
def updateMetric (prev : Option MetricUsage) (obs : MetricObs) : Option MetricUsage :=
  if obs.util.isNone ∧ obs.reset.isNone ∧ obs.status.isNone then prev
  else
    let newReset := newResetOf obs
    if ¬ numTruthy newReset ∧ prev.isSome then prev
    else
      some {
        utilization := obs.util.getD ((prev.map (fun m => m.utilization)).getD 0),
        reset := if numTruthy newReset then newReset else prev.bind (fun m => m.reset),
        status := obs.status.getD ((prev.map (fun m => m.status)).getD "unknown") }

/-- Telemetry for all three metrics of one response. -/
structure Observation where
  session5h : MetricObs
  weekly7d : MetricObs
  weekly7dSonnet : MetricObs
deriving DecidableEq, Repr

/-- The usage-update block of the fetch handler:
`state.usage[account.name] = { session5h: updateMetric(prev.session5h, …), …,
timestamp: new Date().toISOString() }` where
`prev = state.usage[account.name] || {}`. -/
def updateFromObservation (prev : Option AccountUsage) (obs : Observation) (ts : String) :
    AccountUsage :=
  let p := prev.getD ⟨none, none, none, none⟩
  { session5h := updateMetric p.session5h obs.session5h,
    weekly7d := updateMetric p.weekly7d obs.weekly7d,
    weekly7dSonnet := updateMetric p.weekly7dSonnet obs.weekly7dSonnet,
    timestamp := some ts }

/-- The per-metric condition of `resolveStaleMetrics`:
`metric?.reset && metric.reset * 1000 < now && metric.utilization > 0`
(JS truthiness: a null or zero reset never fires). -/
def staleCond (now : ℚ) (m : MetricUsage) : Bool :=
  numTruthy m.reset && decide (m.reset.getD 0 * 1000 < now) && decide (m.utilization > 0)

/-- One metric of `resolveStaleMetrics`: reset utilization to 0 and status to
"allowed" when stale; the Bool reports whether a change was made. -/
def resolveMetricStale (now : ℚ) (m : Option MetricUsage) : Option MetricUsage × Bool :=
  match m with
  | none => (none, false)
  | some mu =>
      if staleCond now mu then
        (some { mu with utilization := 0, status := "allowed" }, true)
      else (some mu, false)

/-- One account of `resolveStaleMetrics`: the inner loop over the three
metric keys. -/
def resolveAccountStale (now : ℚ) (u : AccountUsage) : AccountUsage × Bool :=
  let s := resolveMetricStale now u.session5h
  let w := resolveMetricStale now u.weekly7d
  let ws := resolveMetricStale now u.weekly7dSonnet
  ({ u with session5h := s.1, weekly7d := w.1, weekly7dSonnet := ws.1 },
   s.2 || w.2 || ws.2)

/-- Source `resolveStaleMetrics(state)`: for every metric of every account in
`state.usage` whose (truthy) reset instant has passed and whose utilization is
positive, zero the utilization and set status "allowed"; returns the updated
usage map and whether anything changed.  `Date.now()` is the explicit `now`. -/
def resolveStaleMetrics (now : ℚ) : List (String × AccountUsage) →
    List (String × AccountUsage) × Bool
  | [] => ([], false)
  | (n, u) :: rest =>
      let hd := resolveAccountStale now u
      let tl := resolveStaleMetrics now rest
      ((n, hd.1) :: tl.1, hd.2 || tl.2)

/-- Source `normalizeAccountFields(account)`: coalesce the legacy
`accessToken`/`refreshToken`/`expiresAt` field names into
`access`/`refresh`/`expires`.  A falsy (absent or empty) canonical credential
is replaced by a present legacy one; a missing numeric `expires` is taken
from a numeric `expiresAt`. -/
def normalizeAccountFields (account : Account) : Account :=
  { account with
    access :=
      if (account.access = none ∨ account.access = some "") ∧ account.accessToken.isSome
      then account.accessToken else account.access,
    refresh :=
      if (account.refresh = none ∨ account.refresh = some "") ∧ account.refreshToken.isSome
      then account.refreshToken else account.refresh,
    expires :=
      if account.expires = none then account.expiresAt else account.expires }

/-- Source `getAccountExpiry(account)`: the normalized numeric expiry, or 0. -/
def getAccountExpiry (account : Account) : ℚ :=
  ((normalizeAccountFields account).expires).getD 0

/-- Source `hasRefreshToken(account)`: a present, non-empty `refresh` string. -/
def hasRefreshToken (account : Account) : Bool :=
  match account.refresh with
  | some s => decide (s.length > 0)
  | none => false

/-- Source `pickPreferredAccount(current, candidate)`. -/
def pickPreferredAccount (current : Option Account) (candidate : Account) : Account :=
  match current with
  | none => candidate
  | some c =>
      if hasRefreshToken candidate ∧ ¬ hasRefreshToken c then candidate
      else if getAccountExpiry candidate > getAccountExpiry c then candidate
      else c

/-- `Map.get` on the insertion-ordered merge map. -/
def lookupAccount (m : List (String × Account)) (name : String) : Option Account :=
  match m with
  | [] => none
  | (k, v) :: rest => if k = name then some v else lookupAccount rest name

/-- `Map.set` on the insertion-ordered merge map: replace in place, else
append at the end (JS `Map` insertion order). -/
def upsertAccount (m : List (String × Account)) (name : String) (a : Account) :
    List (String × Account) :=
  match m with
  | [] => [(name, a)]
  | (k, v) :: rest =>
      if k = name then (name, a) :: rest else (k, v) :: upsertAccount rest name a

/-- One legacy auth source: `{accounts, requestCount}` (already known to be an
object with an accounts array; malformed sources are skipped earlier). -/
structure MultiAuthSource where
  accounts : List Account
  requestCount : Option ℚ
deriving DecidableEq, Repr

/-- The merged result of `mergeMultiAuthSources`. -/
structure MergedAuth where
  accounts : List Account
  requestCount : ℚ
deriving DecidableEq, Repr

/-- The inner loop body of `mergeMultiAuthSources`: normalize, skip accounts
with a falsy name, and fold through `pickPreferredAccount`. -/
def mergeAccountsStep (m : List (String × Account)) (raw : Account) :
    List (String × Account) :=
  let a := normalizeAccountFields raw
  if a.name = "" then m
  else upsertAccount m a.name (pickPreferredAccount (lookupAccount m a.name) a)

/-- Source `mergeMultiAuthSources(sourceDataList)`: fold all sources' accounts
by name through `pickPreferredAccount`, take the largest numeric
`requestCount`, and return `null` when no named account was found. -/
def mergeMultiAuthSources (sourceDataList : List MultiAuthSource) : Option MergedAuth :=
  let step := fun (acc : List (String × Account) × ℚ) (source : MultiAuthSource) =>
    let rc := match source.requestCount with
      | some v => if v > acc.2 then v else acc.2
      | none => acc.2
    (source.accounts.foldl mergeAccountsStep acc.1, rc)
  let r := sourceDataList.foldl step ([], 0)
  if r.1.isEmpty then none else some ⟨r.1.map (fun e => e.2), r.2⟩

/-- A file system modelled as path ↦ content; a file's content is `some v`
when it is the serialization of the JSON value `v` and `none` when it is
unparsable junk. -/
abbrev FS (α : Type) : Type := List (String × Option α)

/-- `existsSync` + read: `some c` when a file exists at `p` with content `c`. -/
def fsGet {α : Type} (fs : FS α) (p : String) : Option (Option α) :=
  match fs with
  | [] => none
  | (k, v) :: rest => if k = p then some v else fsGet rest p

/-- Write (create or overwrite) the file at `p`. -/
def fsSet {α : Type} (fs : FS α) (p : String) (c : Option α) : FS α :=
  match fs with
  | [] => [(p, c)]
  | (k, v) :: rest => if k = p then (p, c) :: rest else (k, v) :: fsSet rest p c

/-- Delete the file at `p` if present. -/
def fsDel {α : Type} (fs : FS α) (p : String) : FS α :=
  match fs with
  | [] => []
  | (k, v) :: rest => if k = p then fsDel rest p else (k, v) :: fsDel rest p

/-- Source `safeReadJSON(filePath, fallback)`: try `filePath` then
`filePath + ".bak"`; a missing or unparsable file falls through; otherwise
the parsed content is returned. -/
def safeReadJSON {α : Type} (fs : FS α) (filePath : String) (fallback : α) : α :=
  match fsGet fs filePath with
  | some (some v) => v
  | _ =>
      match fsGet fs (filePath ++ ".bak") with
      | some (some v) => v
      | _ => fallback

/-- State of the file system after step 1 of `safeWriteJSON` (best-effort
backup copy of the current file, taken only when the file exists). -/
def safeWriteBackupStep {α : Type} (fs : FS α) (filePath : String) : FS α :=
  match fsGet fs filePath with
  | some c => fsSet fs (filePath ++ ".bak") c
  | none => fs

/-- State after step 2 of `safeWriteJSON`: the new serialized content written
to `filePath + ".tmp"`. -/
def safeWriteTmpStep {α : Type} (fs : FS α) (filePath : String) (data : α) : FS α :=
  fsSet (safeWriteBackupStep fs filePath) (filePath ++ ".tmp") (some data)

/-- State after step 3 of `safeWriteJSON`: `renameSync(tmp, filePath)` moves
the tmp file onto the target. -/
def safeWriteJSON {α : Type} (fs : FS α) (filePath : String) (data : α) : FS α :=
  match fsGet (safeWriteTmpStep fs filePath data) (filePath ++ ".tmp") with
  | some c => fsSet (fsDel (safeWriteTmpStep fs filePath data) (filePath ++ ".tmp")) filePath c
  | none => safeWriteTmpStep fs filePath data

/-- The outcome of one credential-refresh exchange for one account, as seen by
the retry loop: `ensureFreshAccountToken` either succeeds or reports the HTTP
status.  The exchange itself is an external call; it is abstracted as a map
from account name to outcome. -/
structure RefreshOutcome where
  ok : Bool
  status : ℚ
deriving DecidableEq, Repr

/-- Result of the multi-account refresh retry loop. -/
inductive LoopResult where
  | ok (a : Account)
  | fatal (name : String) (status : ℚ)
  | spin
deriving DecidableEq, Repr

/-- The `while (true)` retry loop of the fetch handler: try the current
account; on failure record it in `attemptedAccounts` and move to the first
account of the full list not yet attempted; throw once none is left.  `fuel`
bounds the iteration count (`spin` is returned only on fuel exhaustion, which
the theorems rule out). -/
def refreshLoop (accounts : List Account) (outcome : String → RefreshOutcome) :
    Nat → Account → List String → LoopResult
  | 0, _, _ => .spin
  | fuel + 1, account, attempted =>
      if (outcome account.name).ok then .ok account
      else
        let attempted1 := attempted ++ [account.name]
        match accounts.find? (fun c => ! attempted1.contains c.name) with
        | none => .fatal account.name (outcome account.name).status
        | some fb => refreshLoop accounts outcome fuel fb attempted1

/-! ### Helper lemmas -/

theorem fsGet_fsSet {α : Type} (fs : FS α) (p q : String) (c : Option α) :
    fsGet (fsSet fs p c) q = if q = p then some c else fsGet fs q := by
  induction fs with
  | nil =>
      by_cases hq : q = p <;> simp [fsSet, fsGet, hq]
      exact fun h => absurd h.symm hq
  | cons e rest ih =>
      obtain ⟨k, v⟩ := e
      by_cases hk : k = p <;> by_cases hq : q = p <;>
        simp_all [fsSet, fsGet]
      rw [if_neg (fun h => hq h.symm), if_neg (fun h => hq h.symm)]

theorem fsGet_fsDel {α : Type} (fs : FS α) (p q : String) :
    fsGet (fsDel fs p) q = if q = p then none else fsGet fs q := by
  induction fs with
  | nil => simp [fsDel, fsGet]
  | cons e rest ih =>
      obtain ⟨k, v⟩ := e
      by_cases hk : k = p <;> by_cases hq : q = p <;>
        simp_all [fsDel, fsGet]
      by_cases hkq : k = q <;> simp_all

/-! ### Claim C7: atomicity of safeWriteJSON -/

/-- Claim C7: if `safeWriteJSON` is interrupted immediately before the atomic
rename (i.e. after the backup step or after the tmp-write step), the content
visible at `path` is unchanged from its pre-write content, and a subsequent
`safeReadJSON` of `path` is insensitive to the leftover `path + ".tmp"` file;
in every execution the visible file at `path` is either the old content or
the new complete content, never a half-written one. -/
theorem safeWriteJSON_atomic {α : Type} (fs : FS α) (path : String) (data : α)
    (fallback : α)
    (htmp : path ++ ".tmp" ≠ path) (hbak : path ++ ".bak" ≠ path)
    (htb : path ++ ".tmp" ≠ path ++ ".bak") :
    fsGet (safeWriteBackupStep fs path) path = fsGet fs path ∧
    fsGet (safeWriteTmpStep fs path data) path = fsGet fs path ∧
    safeReadJSON (safeWriteTmpStep fs path data) path fallback =
      safeReadJSON (fsDel (safeWriteTmpStep fs path data) (path ++ ".tmp")) path fallback ∧
    fsGet (safeWriteJSON fs path data) path = some (some data) ∧
    ∀ s ∈ [fs, safeWriteBackupStep fs path, safeWriteTmpStep fs path data,
           safeWriteJSON fs path data],
      fsGet s path = fsGet fs path ∨ fsGet s path = some (some data) := by
  have h1 : fsGet (safeWriteBackupStep fs path) path = fsGet fs path := by
    unfold safeWriteBackupStep
    cases hc : fsGet fs path with
    | none => exact hc
    | some c => rw [fsGet_fsSet, if_neg (fun h => hbak h.symm)]; exact hc
  have h2 : fsGet (safeWriteTmpStep fs path data) path = fsGet fs path := by
    unfold safeWriteTmpStep
    rw [fsGet_fsSet, if_neg (fun h => htmp h.symm)]
    exact h1
  have h3 : safeReadJSON (safeWriteTmpStep fs path data) path fallback =
      safeReadJSON (fsDel (safeWriteTmpStep fs path data) (path ++ ".tmp")) path fallback := by
    unfold safeReadJSON
    rw [fsGet_fsDel, if_neg (fun h => htmp h.symm),
        fsGet_fsDel, if_neg (fun h => htb h.symm)]
  have htmpget : fsGet (safeWriteTmpStep fs path data) (path ++ ".tmp") = some (some data) := by
    unfold safeWriteTmpStep
    rw [fsGet_fsSet, if_pos rfl]
  have h4 : fsGet (safeWriteJSON fs path data) path = some (some data) := by
    unfold safeWriteJSON
    rw [htmpget]
    rw [fsGet_fsSet, if_pos rfl]
  refine ⟨h1, h2, h3, h4, ?_⟩
  intro s hs
  simp only [List.mem_cons, List.mem_singleton] at hs
  rcases hs with rfl | rfl | rfl | rfl | h
  · exact Or.inl rfl
  · exact Or.inl h1
  · exact Or.inl h2
  · exact Or.inr h4
  · cases h

/-- Witness for claim C7 at a concrete path and file system. -/
theorem safeWriteJSON_atomic_witness :
    fsGet (safeWriteTmpStep [("f", some 1)] "f" (2 : ℕ)) "f" = fsGet [("f", some 1)] "f" ∧
    fsGet (safeWriteJSON [("f", some 1)] "f" (2 : ℕ)) "f" = some (some 2) := by
  have h := safeWriteJSON_atomic [("f", some (1 : ℕ))] "f" 2 0
    (by decide) (by decide) (by decide)
  exact ⟨h.2.1, h.2.2.2.1⟩

/-! ### Claim C4: merge preference -/

/-- Counterexample for claim C4 as stated: two sources share the name "x";
only the first record has a non-empty refresh credential, but because the
second record has a later expiry the merged list keeps the second,
refresh-less record.  The order of the two legacy sources therefore matters,
contradicting "in either order". -/
theorem mergeMultiAuthSources_refresh_cex :
    mergeMultiAuthSources
        [⟨[⟨"x", none, some "r", some 1, none, none, none⟩], none⟩,
         ⟨[⟨"x", none, some "", some 2, none, none, none⟩], none⟩] =
      some ⟨[⟨"x", none, some "", some 2, none, none, none⟩], 0⟩ ∧
    hasRefreshToken ⟨"x", none, some "r", some 1, none, none, none⟩ = true ∧
    hasRefreshToken ⟨"x", none, some "", some 2, none, none, none⟩ = false := by
  decide

/-- Claim C4 (amended): for two legacy sources holding one record each with
the same non-empty account name, the merged list contains the second record
when it has a non-empty refresh credential and the first does not, otherwise
the second record when its (normalized) expiry is strictly later, and
otherwise the first record.  (When exactly one record has a refresh
credential it wins only if it is processed second, or first with an expiry at
least as late.) -/
theorem mergeMultiAuthSources_pair (x y : Account)
    (hn : x.name = y.name) (hne : x.name ≠ "") :
    mergeMultiAuthSources [⟨[x], none⟩, ⟨[y], none⟩] =
      some ⟨[if hasRefreshToken (normalizeAccountFields y) ∧
                ¬ hasRefreshToken (normalizeAccountFields x)
             then normalizeAccountFields y
             else if getAccountExpiry (normalizeAccountFields y) >
                getAccountExpiry (normalizeAccountFields x)
             then normalizeAccountFields y
             else normalizeAccountFields x], 0⟩ := by
  have hxn : (normalizeAccountFields x).name = x.name := rfl
  have hyn : (normalizeAccountFields y).name = y.name := rfl
  simp only [mergeMultiAuthSources, List.foldl, mergeAccountsStep, hxn, hyn, ← hn,
    if_neg hne, lookupAccount, upsertAccount, if_pos rfl, pickPreferredAccount,
    List.isEmpty_cons, List.map_cons, List.map_nil, Bool.false_eq_true, if_false]
  simp

/-- Witness for claim C4 (amended) at concrete records: refresh-less second
record with later expiry wins. -/
theorem mergeMultiAuthSources_pair_witness :
    mergeMultiAuthSources
        [⟨[⟨"y", none, some "r", some 5, none, none, none⟩], none⟩,
         ⟨[⟨"y", none, none, some 9, none, none, none⟩], none⟩] =
      some ⟨[⟨"y", none, none, some 9, none, none, none⟩], 0⟩ := by
  have h := mergeMultiAuthSources_pair
    ⟨"y", none, some "r", some 5, none, none, none⟩
    ⟨"y", none, none, some 9, none, none, none⟩ rfl (by decide)
  rw [h]
  decide

/-! ### Claim C3: partial telemetry updates -/

/-- Counterexample for claim C3 as stated: an observation whose `session`
metric carries only a utilization header (0.9) against a prior metric with
utilization 0.1.  The claim says the present field is applied, but the code's
`if (!newReset && prev) return prev` guard discards the entire update: the
prior metric is returned unchanged. -/
theorem updateFromObservation_applies_cex :
    updateFromObservation
        (some ⟨some ⟨1/10, some 100, "allowed"⟩, none, none, some "t0"⟩)
        ⟨⟨some (9/10), none, none⟩, ⟨none, none, none⟩, ⟨none, none, none⟩⟩ "t1" =
      ⟨some ⟨1/10, some 100, "allowed"⟩, none, none, some "t1"⟩ ∧
    (9/10 : ℚ) ≠ 1/10 := by
  constructor
  · rfl
  · norm_num

/-- Claim C3 (amended): `updateFromObservation` treats the three metrics
independently and stamps the observation time.  Per metric: if all three
fields are absent the prior value is kept; moreover, whenever the observation
carries no truthy reset value (absent, unparsable, or zero) and a prior
metric exists, the whole prior metric is kept unchanged even if utilization
or status are present; otherwise the present fields are applied and absent
fields keep their prior values (defaulting to utilization 0 and status
"unknown" when there is no prior). -/
theorem updateFromObservation_amended (p : Option MetricUsage) (mo : MetricObs)
    (prev : Option AccountUsage) (obs : Observation) (ts : String) :
    (mo.util = none ∧ mo.reset = none ∧ mo.status = none → updateMetric p mo = p) ∧
    (numTruthy (newResetOf mo) = false → p.isSome = true → updateMetric p mo = p) ∧
    (¬ (mo.util = none ∧ mo.reset = none ∧ mo.status = none) →
      (numTruthy (newResetOf mo) = true ∨ p = none) →
      updateMetric p mo = some
        { utilization := mo.util.getD ((p.map (fun m => m.utilization)).getD 0),
          reset := if numTruthy (newResetOf mo) then newResetOf mo
                   else p.bind (fun m => m.reset),
          status := mo.status.getD ((p.map (fun m => m.status)).getD "unknown") }) ∧
    (obs.weekly7d.util = none ∧ obs.weekly7d.reset = none ∧ obs.weekly7d.status = none →
      (updateFromObservation prev obs ts).weekly7d =
        (prev.getD ⟨none, none, none, none⟩).weekly7d) ∧
    (obs.weekly7dSonnet.util = none ∧ obs.weekly7dSonnet.reset = none ∧
        obs.weekly7dSonnet.status = none →
      (updateFromObservation prev obs ts).weekly7dSonnet =
        (prev.getD ⟨none, none, none, none⟩).weekly7dSonnet) ∧
    (updateFromObservation prev obs ts).timestamp = some ts := by
  refine ⟨?_, ?_, ?_, ?_, ?_, rfl⟩
  · rintro ⟨h1, h2, h3⟩
    simp [updateMetric, h1, h2, h3]
  · intro hr hp
    by_cases hab : mo.util.isNone ∧ mo.reset.isNone ∧ mo.status.isNone
    · simp [updateMetric, hab]
    · simp [updateMetric, hab, hr, hp]
  · intro hab hor
    have hab' : ¬ (mo.util.isNone ∧ mo.reset.isNone ∧ mo.status.isNone) := by
      simpa [Option.isNone_iff_eq_none] using hab
    rcases hor with htr | hpn
    · simp [updateMetric, hab', htr]
      intro h1 h2 h3
      exact absurd ⟨h1, h2, h3⟩ hab
    · subst hpn
      simp [updateMetric, hab']
      intro h1 h2
      exact fun h3 => hab ⟨h1, h2, h3⟩
  · rintro ⟨h1, h2, h3⟩
    simp [updateFromObservation, updateMetric, h1, h2, h3]
  · rintro ⟨h1, h2, h3⟩
    simp [updateFromObservation, updateMetric, h1, h2, h3]

/-- Witness for claim C3 (amended) at a concrete metric and observation. -/
theorem updateFromObservation_amended_witness :
    updateMetric (some ⟨1/2, some 7, "allowed"⟩) ⟨none, none, none⟩ =
      some ⟨1/2, some 7, "allowed"⟩ ∧
    updateMetric (some ⟨1/2, some 7, "allowed"⟩) ⟨some (3/4), none, none⟩ =
      some ⟨1/2, some 7, "allowed"⟩ := by
  have h := updateFromObservation_amended (some ⟨1/2, some 7, "allowed"⟩)
    ⟨some (3/4), none, none⟩ none ⟨⟨none, none, none⟩, ⟨none, none, none⟩, ⟨none, none, none⟩⟩ "t"
  have h0 := updateFromObservation_amended (some ⟨1/2, some 7, "allowed"⟩)
    (⟨none, none, none⟩ : MetricObs) none
    ⟨⟨none, none, none⟩, ⟨none, none, none⟩, ⟨none, none, none⟩⟩ "t"
  exact ⟨h0.1 ⟨rfl, rfl, rfl⟩, h.2.1 (by decide) (by decide)⟩

/-! ### Claim C6: stale-metric reconciliation -/

theorem resolveMetricStale_of_false (now : ℚ) (m : Option MetricUsage)
    (h : (resolveMetricStale now m).2 = false) : (resolveMetricStale now m).1 = m := by
  cases m with
  | none => rfl
  | some mu =>
      by_cases hc : staleCond now mu
      · simp [resolveMetricStale, hc] at h
      · simp [resolveMetricStale, hc]

theorem resolveMetricStale_of_true (now : ℚ) (m : Option MetricUsage)
    (h : (resolveMetricStale now m).2 = true) : (resolveMetricStale now m).1 ≠ m := by
  cases m with
  | none => simp [resolveMetricStale] at h
  | some mu =>
      by_cases hc : staleCond now mu
      · simp only [resolveMetricStale, if_pos hc]
        intro heq
        have hu : mu.utilization > 0 := by
          have := hc
          simp [staleCond] at this
          exact this.2
        have h0 : (0 : ℚ) = mu.utilization := by
          have := congrArg (fun o => (o.map (fun mm => mm.utilization)).getD 37) heq
          simpa using this
        exact absurd (h0 ▸ hu) (lt_irrefl mu.utilization)
      · simp [resolveMetricStale, hc] at h

theorem resolveAccountStale_of_false (now : ℚ) (u : AccountUsage)
    (h : (resolveAccountStale now u).2 = false) : (resolveAccountStale now u).1 = u := by
  simp only [resolveAccountStale, Bool.or_eq_false_iff] at h
  obtain ⟨⟨hs, hw⟩, hws⟩ := h
  have e1 := resolveMetricStale_of_false now u.session5h hs
  have e2 := resolveMetricStale_of_false now u.weekly7d hw
  have e3 := resolveMetricStale_of_false now u.weekly7dSonnet hws
  simp only [resolveAccountStale, e1, e2, e3]

theorem resolveAccountStale_of_true (now : ℚ) (u : AccountUsage)
    (h : (resolveAccountStale now u).2 = true) : (resolveAccountStale now u).1 ≠ u := by
  intro heq
  have hs := congrArg AccountUsage.session5h heq
  have hw := congrArg AccountUsage.weekly7d heq
  have hws := congrArg AccountUsage.weekly7dSonnet heq
  simp only [resolveAccountStale] at hs hw hws h
  rcases Bool.or_eq_true_iff.mp h with h' | hws'
  · rcases Bool.or_eq_true_iff.mp h' with hs' | hw'
    · exact resolveMetricStale_of_true now u.session5h hs' hs
    · exact resolveMetricStale_of_true now u.weekly7d hw' hw
  · exact resolveMetricStale_of_true now u.weekly7dSonnet hws' hws

theorem resolveStaleMetrics_of_false_aux (now : ℚ) (l : List (String × AccountUsage))
    (h : (resolveStaleMetrics now l).2 = false) : (resolveStaleMetrics now l).1 = l := by
  induction l with
  | nil => rfl
  | cons e rest ih =>
      obtain ⟨n, u⟩ := e
      simp only [resolveStaleMetrics, Bool.or_eq_false_iff] at h ⊢
      obtain ⟨hhd, htl⟩ := h
      rw [resolveAccountStale_of_false now u hhd, ih htl]

theorem resolveStaleMetrics_changed_iff (now : ℚ) (l : List (String × AccountUsage)) :
    (resolveStaleMetrics now l).2 = true ↔ (resolveStaleMetrics now l).1 ≠ l := by
  induction l with
  | nil => simp [resolveStaleMetrics]
  | cons e rest ih =>
      obtain ⟨n, u⟩ := e
      simp only [resolveStaleMetrics]
      constructor
      · intro h
        rcases Bool.or_eq_true_iff.mp h with hhd | htl
        · intro heq
          have := (List.cons.injEq _ _ _ _).mp heq
          exact resolveAccountStale_of_true now u hhd
            (congrArg Prod.snd this.1)
        · intro heq
          have := (List.cons.injEq _ _ _ _).mp heq
          exact (ih.mp htl) this.2
      · intro hne
        by_contra hb
        have hb' : ((resolveAccountStale now u).2 || (resolveStaleMetrics now rest).2) = false :=
          Bool.eq_false_iff.mpr hb
        rcases Bool.or_eq_false_iff.mp hb' with ⟨hhd, htl⟩
        have e1 := resolveAccountStale_of_false now u hhd
        have e2 := resolveStaleMetrics_of_false_aux now rest htl
        exact hne (by rw [e1, e2])

theorem resolveStaleMetrics_lookup (now : ℚ) (l : List (String × AccountUsage)) (n : String) :
    lookupUsage (resolveStaleMetrics now l).1 n =
      (lookupUsage l n).map (fun u => (resolveAccountStale now u).1) := by
  induction l with
  | nil => simp [resolveStaleMetrics, lookupUsage]
  | cons e rest ih =>
      obtain ⟨k, u⟩ := e
      by_cases hk : k = n <;>
        simp [resolveStaleMetrics, lookupUsage, hk, ih]

/-- Counterexample for claim C6 as stated: a metric with reset instant 0
(the epoch, which lies in the past of `now = 1000` ms) and nonzero
utilization 0.9 is left unchanged by `resolveStaleMetrics`, and the result
reports no change — JS truthiness treats a zero reset as absent. -/
theorem resolveStaleMetrics_zero_reset_cex :
    resolveStaleMetrics 1000 [("a", ⟨some ⟨9/10, some 0, "limited"⟩, none, none, none⟩)] =
      ([("a", ⟨some ⟨9/10, some 0, "limited"⟩, none, none, none⟩)], false) ∧
    (0 : ℚ) * 1000 < 1000 ∧ (9/10 : ℚ) ≠ 0 := by
  refine ⟨rfl, by norm_num, by norm_num⟩

/-- Claim C6 (amended): `resolveStaleMetrics` resets every metric of every
account whose reset field is a truthy (present, nonzero) instant lying in
the past and whose utilization is positive to utilization 0 and status
"allowed", leaves every other metric unchanged, and its boolean result is
true if and only if some change occurred. -/
theorem resolveStaleMetrics_amended (now : ℚ) (usage : List (String × AccountUsage)) :
    ((resolveStaleMetrics now usage).2 = true ↔ (resolveStaleMetrics now usage).1 ≠ usage) ∧
    (∀ n, lookupUsage (resolveStaleMetrics now usage).1 n =
        (lookupUsage usage n).map (fun u => (resolveAccountStale now u).1)) ∧
    (∀ m : MetricUsage, staleCond now m = true →
        resolveMetricStale now (some m) =
          (some { m with utilization := 0, status := "allowed" }, true)) ∧
    (∀ m : MetricUsage, staleCond now m = false →
        resolveMetricStale now (some m) = (some m, false)) := by
  refine ⟨resolveStaleMetrics_changed_iff now usage,
          fun n => resolveStaleMetrics_lookup now usage n, ?_, ?_⟩
  · intro m hm
    simp [resolveMetricStale, hm]
  · intro m hm
    simp [resolveMetricStale, hm]

/-- Witness for claim C6 (amended) at a concrete stale metric. -/
theorem resolveStaleMetrics_amended_witness :
    resolveMetricStale 1001 (some ⟨1, some 1, "limited"⟩) =
      (some ⟨0, some 1, "allowed"⟩, true) := by
  exact (resolveStaleMetrics_amended 1001 []).2.2.1 ⟨1, some 1, "limited"⟩
    (by norm_num [staleCond, numTruthy])

/-! ### Selection engine: claims C1, C2, C5, C9, C10 -/

theorem foldl_pickLower_mem (score : Account → ℚ) (l : List Account) (acc : Account) :
    l.foldl (pickLower score) acc = acc ∨ l.foldl (pickLower score) acc ∈ l := by
  induction l generalizing acc with
  | nil => exact Or.inl rfl
  | cons x xs ih =>
      simp only [List.foldl_cons]
      rcases ih (pickLower score acc x) with h | h
      · rw [h]
        unfold pickLower
        split
        · exact Or.inr (List.mem_cons_self x xs)
        · exact Or.inl rfl
      · exact Or.inr (List.mem_cons_of_mem x h)

theorem foldl_pickLower_le (score : Account → ℚ) (l : List Account) (acc : Account) :
    score (l.foldl (pickLower score) acc) ≤ score acc ∧
    ∀ f ∈ l, score (l.foldl (pickLower score) acc) ≤ score f := by
  induction l generalizing acc with
  | nil => exact ⟨le_refl _, by simp⟩
  | cons x xs ih =>
      have h := ih (pickLower score acc x)
      have hacc : score (pickLower score acc x) ≤ score acc := by
        unfold pickLower
        split
        · exact le_of_lt ‹_›
        · exact le_refl _
      have hx : score (pickLower score acc x) ≤ score x := by
        unfold pickLower
        split
        · exact le_refl _
        · exact le_of_not_lt ‹_›
      refine ⟨le_trans h.1 hacc, ?_⟩
      intro f hf
      simp only [List.foldl_cons]
      rcases List.mem_cons.mp hf with rfl | hf'
      · exact le_trans h.1 hx
      · exact h.2 f hf'

/-- Claim C1: with at least two accounts and the primary active, `select`
returns the primary when the primary is not over threshold, and otherwise the
first fallback in array order that is not over threshold, whenever one
exists. -/
theorem selectThresholdAccount_primary_active (primary f0 : Account) (rest : List Account)
    (state : State) (now : ℚ)
    (hname : primary.name ≠ "")
    (hcur : state.currentAccount = some primary.name) :
    (isOverThreshold (normalizeThresholds state.config.threshold (7/10))
        (lookupUsage state.usage primary.name) = false →
      (selectThresholdAccount (primary :: f0 :: rest) state now).1 = some primary) ∧
    (isOverThreshold (normalizeThresholds state.config.threshold (7/10))
        (lookupUsage state.usage primary.name) = true →
      ∀ fb, (f0 :: rest).find? (fun f => ! isOverThreshold
            (normalizeThresholds state.config.threshold (7/10))
            (lookupUsage state.usage f.name)) = some fb →
        (selectThresholdAccount (primary :: f0 :: rest) state now).1 = some fb) := by
  constructor
  · intro hov
    simp [selectThresholdAccount, hcur, strTruthy, hname, hov]
  · intro hov fb hfb
    simp [selectThresholdAccount, hcur, strTruthy, hname, hov, hfb]

/-- Witness for claim C1 at concrete accounts: threshold 1, the primary at
utilization 2 (over), the first fallback at 2 (over), the second at 0;
`select` returns the second fallback. -/
theorem selectThresholdAccount_primary_active_witness :
    (selectThresholdAccount
        [⟨"a", none, none, none, none, none, none⟩,
         ⟨"b", none, none, none, none, none, none⟩,
         ⟨"c", none, none, none, none, none, none⟩]
        ⟨some "a",
         [("a", ⟨some ⟨2, none, "allowed"⟩, none, none, none⟩),
          ("b", ⟨some ⟨2, none, "allowed"⟩, none, none, none⟩),
          ("c", ⟨some ⟨0, none, "allowed"⟩, none, none, none⟩)],
         none, none, ⟨some (.num 1), none⟩⟩ 0).1 =
      some ⟨"c", none, none, none, none, none, none⟩ := by
  refine (selectThresholdAccount_primary_active
      ⟨"a", none, none, none, none, none, none⟩
      ⟨"b", none, none, none, none, none, none⟩
      [⟨"c", none, none, none, none, none, none⟩] _ 0 (by decide) rfl).2
    (by decide) _ (by decide)

/-- Claim C2: with a fallback active, `select` returns the same fallback on
every call, regardless of the primary's recorded utilization, until a
recovery trigger fires (primary's earliest reset passed since the last check,
or the recovery interval elapsed); when it fires the check timestamp is
advanced to `now`, the primary is returned when it is no longer over
threshold, and the same fallback otherwise. -/
theorem selectThresholdAccount_fallback_hysteresis (primary f0 : Account)
    (rest : List Account) (fb : Account) (state : State) (now : ℚ)
    (htr : strTruthy state.currentAccount = true)
    (hnp : state.currentAccount ≠ some primary.name)
    (hfind : (primary :: f0 :: rest).find?
        (fun a => decide (state.currentAccount = some a.name)) = some fb) :
    (recoveryDue (state.config.checkInterval.getD 3600000) (state.lastPrimaryCheck.getD 0)
        now (lookupUsage state.usage primary.name) = false →
      selectThresholdAccount (primary :: f0 :: rest) state now = (some fb, state)) ∧
    (recoveryDue (state.config.checkInterval.getD 3600000) (state.lastPrimaryCheck.getD 0)
        now (lookupUsage state.usage primary.name) = true →
      selectThresholdAccount (primary :: f0 :: rest) state now =
        (some (if isOverThreshold (normalizeThresholds state.config.threshold (7/10))
                  (lookupUsage state.usage primary.name) = true
               then fb else primary),
         { state with lastPrimaryCheck := some now })) := by
  constructor
  · intro hdue
    simp [selectThresholdAccount, htr, hnp, hfind, hdue]
  · intro hdue
    by_cases hov : isOverThreshold (normalizeThresholds state.config.threshold (7/10))
        (lookupUsage state.usage primary.name) = true
    · simp [selectThresholdAccount, htr, hnp, hfind, hdue, hov]
    · simp [selectThresholdAccount, htr, hnp, hfind, hdue, hov]

/-- Witness for claim C2: fallback "b" active, interval not elapsed first, and
then a fired check with the primary still over threshold. -/
theorem selectThresholdAccount_fallback_hysteresis_witness :
    selectThresholdAccount
        [⟨"a", none, none, none, none, none, none⟩,
         ⟨"b", none, none, none, none, none, none⟩]
        ⟨some "b",
         [("a", ⟨some ⟨2, none, "allowed"⟩, none, none, none⟩)],
         none, some 100, ⟨some (.num 1), some 50⟩⟩ 120 =
      (some ⟨"b", none, none, none, none, none, none⟩,
       ⟨some "b",
        [("a", ⟨some ⟨2, none, "allowed"⟩, none, none, none⟩)],
        none, some 100, ⟨some (.num 1), some 50⟩⟩) := by
  have h := (selectThresholdAccount_fallback_hysteresis
      ⟨"a", none, none, none, none, none, none⟩
      ⟨"b", none, none, none, none, none, none⟩ []
      ⟨"b", none, none, none, none, none, none⟩
      ⟨some "b",
       [("a", ⟨some ⟨2, none, "allowed"⟩, none, none, none⟩)],
       none, some 100, ⟨some (.num 1), some 50⟩⟩ 120
      (by decide) (by decide) (by decide)).1
    (by norm_num [recoveryDue, getEarliestResetTime, numTruthy, lookupUsage])
  exact h

/-- Claim C9 (amended): when the recorded active account name is truthy but
matches no account in the list, `select` still does not fail: it returns the
first configured fallback — except that when a recovery trigger fires and the
primary is not over threshold, it returns the primary. -/
theorem selectThresholdAccount_stale_current (primary f0 : Account)
    (rest : List Account) (state : State) (now : ℚ)
    (htr : strTruthy state.currentAccount = true)
    (hnone : (primary :: f0 :: rest).find?
        (fun a => decide (state.currentAccount = some a.name)) = none) :
    (selectThresholdAccount (primary :: f0 :: rest) state now).1 =
      some (if recoveryDue (state.config.checkInterval.getD 3600000)
                (state.lastPrimaryCheck.getD 0) now
                (lookupUsage state.usage primary.name) = true ∧
              isOverThreshold (normalizeThresholds state.config.threshold (7/10))
                (lookupUsage state.usage primary.name) = false
            then primary else f0) := by
  have hnp : state.currentAccount ≠ some primary.name := by
    intro h
    have := List.find?_eq_none.mp hnone primary (List.mem_cons_self _ _)
    simp [h] at this
  by_cases hdue : recoveryDue (state.config.checkInterval.getD 3600000)
      (state.lastPrimaryCheck.getD 0) now (lookupUsage state.usage primary.name) = true
  · by_cases hov : isOverThreshold (normalizeThresholds state.config.threshold (7/10))
        (lookupUsage state.usage primary.name) = true
    · simp [selectThresholdAccount, htr, hnp, hnone, hdue, hov]
    · simp [selectThresholdAccount, htr, hnp, hnone, hdue, hov]
  · simp only [Bool.not_eq_true] at hdue
    simp [selectThresholdAccount, htr, hnp, hnone, hdue]

/-- Counterexample for claim C9 as stated: the recorded active account
"ghost" matches no account, the recovery interval has elapsed (lastCheck 0,
now large), and the primary is under threshold — `select` returns the
primary, not the first configured fallback. -/
theorem selectThresholdAccount_stale_current_cex :
    (selectThresholdAccount
        [⟨"a", none, none, none, none, none, none⟩,
         ⟨"b", none, none, none, none, none, none⟩]
        ⟨some "ghost", [], none, none, ⟨some (.num 1), none⟩⟩ 4000000).1 =
      some ⟨"a", none, none, none, none, none, none⟩ ∧
    (⟨"a", none, none, none, none, none, none⟩ : Account) ≠
      ⟨"b", none, none, none, none, none, none⟩ := by
  constructor
  · norm_num [selectThresholdAccount, strTruthy, lookupUsage, recoveryDue,
      getEarliestResetTime, numTruthy, isOverThreshold, normalizeThresholds,
      metricUtil, List.find?]
    decide
  · decide

/-- Witness for claim C9 (amended): same stale-name state before the interval
elapses; `select` returns the first fallback. -/
theorem selectThresholdAccount_stale_current_witness :
    (selectThresholdAccount
        [⟨"a", none, none, none, none, none, none⟩,
         ⟨"b", none, none, none, none, none, none⟩]
        ⟨some "ghost", [], none, some 100, ⟨some (.num 1), some 1000⟩⟩ 120).1 =
      some ⟨"b", none, none, none, none, none, none⟩ := by
  have h := selectThresholdAccount_stale_current
      ⟨"a", none, none, none, none, none, none⟩
      ⟨"b", none, none, none, none, none, none⟩ []
      ⟨some "ghost", [], none, some 100, ⟨some (.num 1), some 1000⟩⟩ 120
      (by decide) (by decide)
  rw [h]
  norm_num [recoveryDue, getEarliestResetTime, numTruthy, lookupUsage]

/-- Claim C5: with the primary active, the primary over threshold, and every
fallback over threshold too, `select` returns a fallback whose pressure
(maximum over metrics of utilization divided by that metric's threshold) is
lowest among all fallbacks.  The positivity hypotheses scope the statement to
positive thresholds, where rational division agrees with the source's
floating-point division. -/
theorem selectThresholdAccount_all_breaching (primary f0 : Account) (rest : List Account)
    (state : State) (now : ℚ)
    (hname : primary.name ≠ "")
    (hcur : state.currentAccount = some primary.name)
    (hov : isOverThreshold (normalizeThresholds state.config.threshold (7/10))
        (lookupUsage state.usage primary.name) = true)
    (hall : ∀ f ∈ f0 :: rest,
        isOverThreshold (normalizeThresholds state.config.threshold (7/10))
          (lookupUsage state.usage f.name) = true)
    (_hpos1 : 0 < (normalizeThresholds state.config.threshold (7/10)).session5h)
    (_hpos2 : 0 < (normalizeThresholds state.config.threshold (7/10)).weekly7d)
    (_hpos3 : 0 < (normalizeThresholds state.config.threshold (7/10)).weekly7dSonnet) :
    ∃ b, (selectThresholdAccount (primary :: f0 :: rest) state now).1 = some b ∧
      b ∈ f0 :: rest ∧
      ∀ f ∈ f0 :: rest,
        getUtilizationScore (normalizeThresholds state.config.threshold (7/10))
            (lookupUsage state.usage b.name) ≤
          getUtilizationScore (normalizeThresholds state.config.threshold (7/10))
            (lookupUsage state.usage f.name) := by
  have hfind : (f0 :: rest).find? (fun f => ! isOverThreshold
      (normalizeThresholds state.config.threshold (7/10))
      (lookupUsage state.usage f.name)) = none := by
    apply List.find?_eq_none.mpr
    intro x hx
    simp [hall x hx]
  refine ⟨(f0 :: rest).foldl
      (pickLower (fun f => getUtilizationScore (normalizeThresholds state.config.threshold (7/10))
        (lookupUsage state.usage f.name))) f0, ?_, ?_, ?_⟩
  · simp [selectThresholdAccount, hcur, strTruthy, hname, hov, hfind]
  · rcases foldl_pickLower_mem
        (fun f => getUtilizationScore (normalizeThresholds state.config.threshold (7/10))
          (lookupUsage state.usage f.name)) (f0 :: rest) f0 with h | h
    · rw [h]; exact List.mem_cons_self _ _
    · exact h
  · exact (foldl_pickLower_le
      (fun f => getUtilizationScore (normalizeThresholds state.config.threshold (7/10))
        (lookupUsage state.usage f.name)) (f0 :: rest) f0).2

/-- Witness for claim C5: primary "a" at utilization 2, fallbacks "b" at 3 and
"c" at 2 against threshold 1 everywhere; all breach, and `select` returns "c",
whose pressure 2 is the lowest. -/
theorem selectThresholdAccount_all_breaching_witness :
    (selectThresholdAccount
        [⟨"a", none, none, none, none, none, none⟩,
         ⟨"b", none, none, none, none, none, none⟩,
         ⟨"c", none, none, none, none, none, none⟩]
        ⟨some "a",
         [("a", ⟨some ⟨2, none, "allowed"⟩, none, none, none⟩),
          ("b", ⟨some ⟨3, none, "allowed"⟩, none, none, none⟩),
          ("c", ⟨some ⟨2, none, "allowed"⟩, none, none, none⟩)],
         none, none, ⟨some (.num 1), none⟩⟩ 0).1 =
      some ⟨"c", none, none, none, none, none, none⟩ ∧
    getUtilizationScore (normalizeThresholds (some (.num 1)) (7/10))
        (some ⟨some ⟨2, none, "allowed"⟩, none, none, none⟩) ≤
      getUtilizationScore (normalizeThresholds (some (.num 1)) (7/10))
        (some ⟨some ⟨3, none, "allowed"⟩, none, none, none⟩) := by
  obtain ⟨b, hb, hmem, hmin⟩ := selectThresholdAccount_all_breaching
    ⟨"a", none, none, none, none, none, none⟩
    ⟨"b", none, none, none, none, none, none⟩
    [⟨"c", none, none, none, none, none, none⟩]
    ⟨some "a",
     [("a", ⟨some ⟨2, none, "allowed"⟩, none, none, none⟩),
      ("b", ⟨some ⟨3, none, "allowed"⟩, none, none, none⟩),
      ("c", ⟨some ⟨2, none, "allowed"⟩, none, none, none⟩)],
     none, none, ⟨some (.num 1), none⟩⟩ 0
    (by decide) rfl (by decide) (by decide)
    (by norm_num [normalizeThresholds]) (by norm_num [normalizeThresholds])
    (by norm_num [normalizeThresholds])
  have he : (selectThresholdAccount
      [⟨"a", none, none, none, none, none, none⟩,
       ⟨"b", none, none, none, none, none, none⟩,
       ⟨"c", none, none, none, none, none, none⟩]
      ⟨some "a",
       [("a", ⟨some ⟨2, none, "allowed"⟩, none, none, none⟩),
        ("b", ⟨some ⟨3, none, "allowed"⟩, none, none, none⟩),
        ("c", ⟨some ⟨2, none, "allowed"⟩, none, none, none⟩)],
       none, none, ⟨some (.num 1), none⟩⟩ 0).1 =
      some ⟨"c", none, none, none, none, none, none⟩ := by
    norm_num [selectThresholdAccount, strTruthy, lookupUsage, isOverThreshold,
      normalizeThresholds, metricUtil, List.find?, pickLower, getUtilizationScore,
      (show ("a" : String) ≠ "" by decide), (show ("a" : String) ≠ "b" by decide),
      (show ("a" : String) ≠ "c" by decide), (show ("b" : String) ≠ "c" by decide)]
  refine ⟨he, ?_⟩
  have hbc : b = ⟨"c", none, none, none, none, none, none⟩ := by
    have := hb.symm.trans he
    exact Option.some.inj this
  have h3 := hmin ⟨"b", none, none, none, none, none, none⟩ (by decide)
  rw [hbc] at h3
  simpa [lookupUsage] using h3

/-- Claim C10: `selectThresholdAccount` leaves every component of the state
other than `lastPrimaryCheck` unchanged — usage, currentAccount, requestCount
and config are identical — and `lastPrimaryCheck` changes only when a
recovery trigger fires while a (truthy, non-primary) account name is
recorded as active, in which case it becomes `now`. -/
theorem selectThresholdAccount_frame (accounts : List Account) (state : State) (now : ℚ) :
    (selectThresholdAccount accounts state now).2.usage = state.usage ∧
    (selectThresholdAccount accounts state now).2.currentAccount = state.currentAccount ∧
    (selectThresholdAccount accounts state now).2.requestCount = state.requestCount ∧
    (selectThresholdAccount accounts state now).2.config = state.config ∧
    ((selectThresholdAccount accounts state now).2.lastPrimaryCheck ≠ state.lastPrimaryCheck →
      ∃ primary f0 rest, accounts = primary :: f0 :: rest ∧
        strTruthy state.currentAccount = true ∧
        state.currentAccount ≠ some primary.name ∧
        recoveryDue (state.config.checkInterval.getD 3600000) (state.lastPrimaryCheck.getD 0)
          now (lookupUsage state.usage primary.name) = true ∧
        (selectThresholdAccount accounts state now).2.lastPrimaryCheck = some now) := by
  have H : (selectThresholdAccount accounts state now).2 = state ∨
      ((selectThresholdAccount accounts state now).2 =
          { state with lastPrimaryCheck := some now } ∧
        ∃ primary f0 rest, accounts = primary :: f0 :: rest ∧
          strTruthy state.currentAccount = true ∧
          state.currentAccount ≠ some primary.name ∧
          recoveryDue (state.config.checkInterval.getD 3600000) (state.lastPrimaryCheck.getD 0)
            now (lookupUsage state.usage primary.name) = true) := by
    rcases accounts with _ | ⟨a, _ | ⟨b, rest⟩⟩
    · exact Or.inl rfl
    · exact Or.inl rfl
    · by_cases h1 : strTruthy state.currentAccount = false
      · left
        simp [selectThresholdAccount, h1]
      · have h1' : strTruthy state.currentAccount = true := by
          revert h1
          cases strTruthy state.currentAccount <;> simp
        by_cases h2 : state.currentAccount = some a.name
        · left
          have h1x : strTruthy (some a.name) = true := h2 ▸ h1'
          by_cases h3 : isOverThreshold (normalizeThresholds state.config.threshold (7/10))
              (lookupUsage state.usage a.name) = true
          · cases hfb : (b :: rest).find? (fun f => ! isOverThreshold
                (normalizeThresholds state.config.threshold (7/10))
                (lookupUsage state.usage f.name)) with
            | none => simp [selectThresholdAccount, h1', h1x, h2, h3, hfb]
            | some fb => simp [selectThresholdAccount, h1', h1x, h2, h3, hfb]
          · simp only [Bool.not_eq_true] at h3
            simp [selectThresholdAccount, h1', h1x, h2, h3]
        · by_cases h4 : recoveryDue (state.config.checkInterval.getD 3600000)
              (state.lastPrimaryCheck.getD 0) now (lookupUsage state.usage a.name) = true
          · right
            refine ⟨?_, a, b, rest, rfl, h1', h2, h4⟩
            by_cases h5 : isOverThreshold (normalizeThresholds state.config.threshold (7/10))
                (lookupUsage state.usage a.name) = true
            · simp [selectThresholdAccount, h1', h2, h4, h5]
            · simp only [Bool.not_eq_true] at h5
              simp [selectThresholdAccount, h1', h2, h4, h5]
          · left
            simp only [Bool.not_eq_true] at h4
            simp [selectThresholdAccount, h1', h2, h4]
  rcases H with h | ⟨h, hex⟩
  · rw [h]
    exact ⟨rfl, rfl, rfl, rfl, fun hne => absurd rfl hne⟩
  · rw [h]
    refine ⟨rfl, rfl, rfl, rfl, fun _ => ?_⟩
    obtain ⟨p, f0, r, hacc, ht, hne, hdue⟩ := hex
    exact ⟨p, f0, r, hacc, ht, hne, hdue, rfl⟩

/-- Witness for claim C10 at a concrete call (trigger fired: the timestamp
becomes `now`, everything else is unchanged). -/
theorem selectThresholdAccount_frame_witness :
    (selectThresholdAccount
        [⟨"a", none, none, none, none, none, none⟩,
         ⟨"b", none, none, none, none, none, none⟩]
        ⟨some "b", [], none, some 100, ⟨some (.num 1), some 50⟩⟩ 400).2.usage = [] ∧
    (selectThresholdAccount
        [⟨"a", none, none, none, none, none, none⟩,
         ⟨"b", none, none, none, none, none, none⟩]
        ⟨some "b", [], none, some 100, ⟨some (.num 1), some 50⟩⟩ 400).2.currentAccount =
      some "b" := by
  have h := selectThresholdAccount_frame
    [⟨"a", none, none, none, none, none, none⟩,
     ⟨"b", none, none, none, none, none, none⟩]
    ⟨some "b", [], none, some 100, ⟨some (.num 1), some 50⟩⟩ 400
  exact ⟨h.1, h.2.1⟩

/-! ### Claim C8: credential refresh retry loop -/

theorem contains_append_singleton (att : List String) (x y : String) :
    (att ++ [x]).contains y = (att.contains y || y == x) := by
  induction att with
  | nil =>
      show List.elem y [x] = (List.elem y [] || y == x)
      cases h : y == x <;> simp only [List.elem_cons, List.elem_nil, h, Bool.false_or]
  | cons z zs ih =>
      show List.elem y (z :: (zs ++ [x])) = (List.elem y (z :: zs) || y == x)
      cases h : y == z
      · simp only [List.elem_cons, h]
        exact ih
      · simp only [List.elem_cons, h, Bool.true_or]

theorem not_contains_append (att : List String) (x y : String) :
    (!(att ++ [x]).contains y) = (!att.contains y && y != x) := by
  rw [contains_append_singleton]
  cases att.contains y <;> cases h : y == x <;> simp [bne, h]

theorem find?_eq_head?_filter (p : Account → Bool) (l : List Account) :
    l.find? p = (l.filter p).head? := by
  induction l with
  | nil => rfl
  | cons x xs ih =>
      cases h : p x
      · rw [List.find?_cons_of_neg _ (by simp [h]), List.filter_cons_of_neg (by simp [h]), ih]
      · rw [List.find?_cons_of_pos _ h, List.filter_cons_of_pos h, List.head?_cons]

theorem refreshLoop_allfail_aux (accounts : List Account) (outcome : String → RefreshOutcome)
    (hfail : ∀ a ∈ accounts, (outcome a.name).ok = false)
    (hnodup : (accounts.map (fun a => a.name)).Nodup) :
    ∀ (fuel : Nat) (current : Account) (attempted : List String),
      current ∈ accounts →
      attempted.contains current.name = false →
      (accounts.filter (fun a => ! attempted.contains a.name)).length ≤ fuel →
      refreshLoop accounts outcome fuel current attempted =
        .fatal ((accounts.filter
            (fun a => ! attempted.contains a.name && a.name != current.name)).getLastD
              current).name
          (outcome ((accounts.filter
            (fun a => ! attempted.contains a.name && a.name != current.name)).getLastD
              current).name).status := by
  intro fuel
  induction fuel with
  | zero =>
      intro current attempted hmem hnc hlen
      exfalso
      have hc : current ∈ accounts.filter (fun a => ! attempted.contains a.name) :=
        List.mem_filter.mpr ⟨hmem, by simp; simpa using hnc⟩
      have h0 : accounts.filter (fun a => ! attempted.contains a.name) = [] :=
        List.length_eq_zero.mp (Nat.le_zero.mp hlen)
      rw [h0] at hc
      exact absurd hc (List.not_mem_nil _)
  | succ fuel ih =>
      intro current attempted hmem hnc hlen
      have hokc : (outcome current.name).ok = false := hfail current hmem
      have hpred : ∀ c : Account, (!(attempted ++ [current.name]).contains c.name) =
          (!attempted.contains c.name && c.name != current.name) :=
        fun c => not_contains_append attempted current.name c.name
      have hfind : accounts.find? (fun c => !(attempted ++ [current.name]).contains c.name) =
          (accounts.filter
            (fun a => !attempted.contains a.name && a.name != current.name)).head? := by
        rw [find?_eq_head?_filter]
        congr 1
        exact List.filter_congr (fun c _ => hpred c)
      simp only [refreshLoop, hokc, Bool.false_eq_true, if_false, hfind]
      cases hR : accounts.filter
          (fun a => !attempted.contains a.name && a.name != current.name) with
      | nil => simp [List.getLastD]
      | cons fb R' =>
          simp only [List.head?_cons]
          have hfbR : fb ∈ accounts.filter
              (fun a => !attempted.contains a.name && a.name != current.name) := by
            rw [hR]
            exact List.mem_cons_self fb R'
          have hfb_mem : fb ∈ accounts := (List.mem_filter.mp hfbR).1
          have hfb_pred := (List.mem_filter.mp hfbR).2
          have hfb_nc : (attempted ++ [current.name]).contains fb.name = false := by
            have h := hpred fb
            rw [hfb_pred] at h
            cases hcc : (attempted ++ [current.name]).contains fb.name
            · rfl
            · rw [hcc] at h
              simp at h
          have hsplit : accounts.filter
              (fun a => !attempted.contains a.name && a.name != current.name) =
              (accounts.filter (fun a => !attempted.contains a.name)).filter
                (fun a => a.name != current.name) := by
            rw [List.filter_filter]
            exact (List.filter_congr (fun c _ => Bool.and_comm _ _)).symm
          have hlt : (accounts.filter
              (fun a => !attempted.contains a.name && a.name != current.name)).length <
              (accounts.filter (fun a => !attempted.contains a.name)).length := by
            rw [hsplit]
            apply List.length_filter_lt_length_iff_exists.mpr
            refine ⟨current, List.mem_filter.mpr ⟨hmem, by simp; simpa using hnc⟩, ?_⟩
            simp [bne]
          have hlen' : (accounts.filter
              (fun a => !(attempted ++ [current.name]).contains a.name)).length ≤ fuel := by
            have heq : accounts.filter
                (fun a => !(attempted ++ [current.name]).contains a.name) =
                accounts.filter
                  (fun a => !attempted.contains a.name && a.name != current.name) :=
              List.filter_congr (fun c _ => hpred c)
            rw [heq]
            omega
          have hrec := ih fb (attempted ++ [current.name]) hfb_mem hfb_nc hlen'
          rw [hrec]
          have hR2 : accounts.filter
              (fun a => !(attempted ++ [current.name]).contains a.name && a.name != fb.name) =
              R' := by
            have heq1 : accounts.filter
                (fun a => !(attempted ++ [current.name]).contains a.name && a.name != fb.name) =
                accounts.filter
                  (fun a => (!attempted.contains a.name && a.name != current.name) &&
                    a.name != fb.name) := by
              apply List.filter_congr
              intro c _
              rw [hpred c]
            have heq2 : accounts.filter
                (fun a => (!attempted.contains a.name && a.name != current.name) &&
                  a.name != fb.name) =
                (accounts.filter
                  (fun a => !attempted.contains a.name && a.name != current.name)).filter
                    (fun a => a.name != fb.name) := by
              rw [List.filter_filter]
              exact (List.filter_congr (fun c _ => Bool.and_comm _ _)).symm
            rw [heq1, heq2, hR, List.filter_cons]
            have hfbfb : (fb.name != fb.name) = false := by simp
            rw [hfbfb]
            simp only [Bool.false_eq_true, if_false]
            apply List.filter_eq_self.mpr
            intro a ha
            have hsub : (fb :: R').Sublist accounts := by
              rw [← hR]
              exact List.filter_sublist accounts
            have hnames : ((fb :: R').map (fun a => a.name)).Nodup :=
              (hsub.map (fun a => a.name)).nodup hnodup
            have hne : a.name ≠ fb.name := by
              intro he
              have : fb.name ∈ R'.map (fun a => a.name) :=
                he ▸ List.mem_map_of_mem (fun a => a.name) ha
              simp only [List.map_cons, List.nodup_cons] at hnames
              exact hnames.1 this
            simp [bne, hne]
          rw [hR2, List.getLastD_cons]

theorem refreshLoop_success_aux (accounts : List Account) (outcome : String → RefreshOutcome) :
    ∀ (fuel : Nat) (current : Account) (attempted : List String),
      current ∈ accounts →
      attempted.contains current.name = false →
      (accounts.filter (fun a => ! attempted.contains a.name)).length ≤ fuel →
      (∃ a ∈ accounts, (outcome a.name).ok = true ∧ attempted.contains a.name = false) →
      ∃ b, b ∈ accounts ∧ (outcome b.name).ok = true ∧
        refreshLoop accounts outcome fuel current attempted = .ok b := by
  intro fuel
  induction fuel with
  | zero =>
      intro current attempted hmem hnc hlen _
      exfalso
      have hc : current ∈ accounts.filter (fun a => ! attempted.contains a.name) :=
        List.mem_filter.mpr ⟨hmem, by simp; simpa using hnc⟩
      have h0 : accounts.filter (fun a => ! attempted.contains a.name) = [] :=
        List.length_eq_zero.mp (Nat.le_zero.mp hlen)
      rw [h0] at hc
      exact absurd hc (List.not_mem_nil _)
  | succ fuel ih =>
      intro current attempted hmem hnc hlen hex
      by_cases hokc : (outcome current.name).ok = true
      · exact ⟨current, hmem, hokc, by simp [refreshLoop, hokc]⟩
      · have hokc' : (outcome current.name).ok = false := by
          cases h : (outcome current.name).ok
          · rfl
          · exact absurd h hokc
        obtain ⟨a, hamem, haok, hanc⟩ := hex
        have hane : a.name ≠ current.name := by
          intro he
          rw [he] at haok
          rw [haok] at hokc'
          cases hokc'
        have hpred : ∀ c : Account, (!(attempted ++ [current.name]).contains c.name) =
            (!attempted.contains c.name && c.name != current.name) :=
          fun c => not_contains_append attempted current.name c.name
        have hfind : accounts.find? (fun c => !(attempted ++ [current.name]).contains c.name) =
            (accounts.filter
              (fun a => !attempted.contains a.name && a.name != current.name)).head? := by
          rw [find?_eq_head?_filter]
          congr 1
          exact List.filter_congr (fun c _ => hpred c)
        have hanm : a.name ∉ attempted := by simpa using hanc
        have haR : a ∈ accounts.filter
            (fun a => !attempted.contains a.name && a.name != current.name) :=
          List.mem_filter.mpr ⟨hamem, by simp [bne, hane, hanm]⟩
        cases hR : accounts.filter
            (fun a => !attempted.contains a.name && a.name != current.name) with
        | nil =>
            rw [hR] at haR
            exact absurd haR (List.not_mem_nil _)
        | cons fb R' =>
            have hfbR : fb ∈ accounts.filter
                (fun a => !attempted.contains a.name && a.name != current.name) := by
              rw [hR]
              exact List.mem_cons_self fb R'
            have hfb_mem : fb ∈ accounts := (List.mem_filter.mp hfbR).1
            have hfb_pred := (List.mem_filter.mp hfbR).2
            have hfb_nc : (attempted ++ [current.name]).contains fb.name = false := by
              have h := hpred fb
              rw [hfb_pred] at h
              cases hcc : (attempted ++ [current.name]).contains fb.name
              · rfl
              · rw [hcc] at h
                simp at h
            have hsplit : accounts.filter
                (fun a => !attempted.contains a.name && a.name != current.name) =
                (accounts.filter (fun a => !attempted.contains a.name)).filter
                  (fun a => a.name != current.name) := by
              rw [List.filter_filter]
              exact (List.filter_congr (fun c _ => Bool.and_comm _ _)).symm
            have hlt : (accounts.filter
                (fun a => !attempted.contains a.name && a.name != current.name)).length <
                (accounts.filter (fun a => !attempted.contains a.name)).length := by
              rw [hsplit]
              apply List.length_filter_lt_length_iff_exists.mpr
              refine ⟨current, List.mem_filter.mpr ⟨hmem, by simp; simpa using hnc⟩, ?_⟩
              simp [bne]
            have hlen' : (accounts.filter
                (fun a => !(attempted ++ [current.name]).contains a.name)).length ≤ fuel := by
              have heq : accounts.filter
                  (fun a => !(attempted ++ [current.name]).contains a.name) =
                  accounts.filter
                    (fun a => !attempted.contains a.name && a.name != current.name) :=
                List.filter_congr (fun c _ => hpred c)
              rw [heq]
              omega
            have hex' : ∃ b ∈ accounts, (outcome b.name).ok = true ∧
                (attempted ++ [current.name]).contains b.name = false := by
              refine ⟨a, hamem, haok, ?_⟩
              have h := hpred a
              have hp : (!attempted.contains a.name && a.name != current.name) = true := by
                simp [bne, hane, hanm]
              rw [hp] at h
              cases hcc : (attempted ++ [current.name]).contains a.name
              · rfl
              · rw [hcc] at h
                simp at h
            obtain ⟨b, hbmem, hbok, hbrec⟩ :=
              ih fb (attempted ++ [current.name]) hfb_mem hfb_nc hlen' hex'
            refine ⟨b, hbmem, hbok, ?_⟩
            simp only [refreshLoop, hokc', Bool.false_eq_true, if_false, hfind, hR,
              List.head?_cons]
            exact hbrec

/-- Claim C8: the multi-account refresh loop, started at an account of the
list with no names yet attempted, never spins; if every account's refresh
fails it raises a single fatal error naming the last account tried (the last
list element other than the start, or the start itself if it is alone) and
that account's status code; and if some account's refresh succeeds, the loop
ends successfully with an account whose refresh succeeds — a fatal error is
raised only once every account has been attempted and failed. -/
theorem refreshLoop_exhaustive (accounts : List Account) (outcome : String → RefreshOutcome)
    (start : Account) (hmem : start ∈ accounts)
    (hnodup : (accounts.map (fun a => a.name)).Nodup) :
    ((∀ a ∈ accounts, (outcome a.name).ok = false) →
      refreshLoop accounts outcome (accounts.length + 1) start [] =
        .fatal ((accounts.filter (fun a => a.name != start.name)).getLastD start).name
          (outcome ((accounts.filter
            (fun a => a.name != start.name)).getLastD start).name).status) ∧
    ((∃ a ∈ accounts, (outcome a.name).ok = true) →
      ∃ b, b ∈ accounts ∧ (outcome b.name).ok = true ∧
        refreshLoop accounts outcome (accounts.length + 1) start [] = .ok b) := by
  have hfilter_all : accounts.filter (fun a => !([] : List String).contains a.name) =
      accounts := List.filter_eq_self.mpr (fun a _ => rfl)
  have hlen : (accounts.filter (fun a => !([] : List String).contains a.name)).length ≤
      accounts.length + 1 := by
    rw [hfilter_all]
    omega
  constructor
  · intro hfail
    have h := refreshLoop_allfail_aux accounts outcome hfail hnodup (accounts.length + 1)
      start [] hmem rfl hlen
    have hfe : accounts.filter
        (fun a => !([] : List String).contains a.name && a.name != start.name) =
        accounts.filter (fun a => a.name != start.name) :=
      List.filter_congr (fun c _ => by simp)
    rw [hfe] at h
    exact h
  · intro hex
    obtain ⟨a, hamem, haok⟩ := hex
    exact refreshLoop_success_aux accounts outcome (accounts.length + 1) start [] hmem rfl
      hlen ⟨a, hamem, haok, rfl⟩

/-- Witness for claim C8: two accounts, both failing (statuses 401 and 403);
the loop ends fatally naming the last account tried, "b", with status 403. -/
theorem refreshLoop_exhaustive_witness :
    refreshLoop
        [⟨"a", none, none, none, none, none, none⟩,
         ⟨"b", none, none, none, none, none, none⟩]
        (fun n => if n = "a" then ⟨false, 401⟩ else ⟨false, 403⟩) 3
        ⟨"a", none, none, none, none, none, none⟩ [] =
      .fatal "b" 403 := by
  have h := (refreshLoop_exhaustive
      [⟨"a", none, none, none, none, none, none⟩,
       ⟨"b", none, none, none, none, none, none⟩]
      (fun n => if n = "a" then ⟨false, 401⟩ else ⟨false, 403⟩)
      ⟨"a", none, none, none, none, none, none⟩
      (List.mem_cons_self _ _) (by decide)).1 (by decide)
  exact h.trans (by decide)

end MultiAccount
